import Mathlib

/-!
# Verification of juju/http (v1 `http.go`/`client.go` and v2 middleware snapshot)

This file shallowly embeds the parts of the repository that the checked
claims are about:

* the address classifier `isLocalAddr` together with faithful models of the
  Go standard library functions it calls (`net.SplitHostPort`, `net.ParseIP`,
  `IP.To4`, `IP.IsLoopback` as of Go 1.14, the version pinned by `go.mod`);
* the `LocalDialBreaker` access breaker and the dial function installed by
  `DialContextMiddleware`;
* the proxy resolution of `getProxy` (v1) and of `ProxyMiddleware` (v2,
  which delegates to the caching `http.ProxyFromEnvironment`);
* the process-global state touched by `init()` and `NewClient` in v1
  `client.go`;
* `BasicAuthHeader` / `ParseBasicAuthHeader` with a model of
  `encoding/base64` std encoding, `strings.Fields` and `strings.SplitN`;
* the retry middleware state machine (whose implementation file is not part
  of the sources; it is modelled from the specification, §4.4).

Go strings are embedded as `List Char` where only ASCII processing matters
(network addresses), and as `List Nat` byte lists where raw bytes matter
(basic-auth credentials).
-/

namespace JujuHttp

/-! ## Go standard library: string scanning helpers (net package, Go 1.14) -/

/-- Index of the first occurrence of `c` in `s` (Go `byteIndex`), if any. -/
def byteIndex (s : List Char) (c : Char) : Option Nat :=
  s.indexOf? c

/-- Index of the last occurrence of `c` in `s` (Go `last`), if any. -/
def lastIndex (s : List Char) (c : Char) : Option Nat :=
  match byteIndex s.reverse c with
  | none => none
  | some i => some (s.length - 1 - i)

/-- Go `net.SplitHostPort` (Go 1.14 `net/ipsock.go`): splits `host:port` or
`[host]:port` into host and port; `none` models the error returns
(missing port, too many colons, bracket errors). -/
def splitHostPort (hp : List Char) : Option (List Char × List Char) :=
  match lastIndex hp ':' with
  | none => none
  | some i =>
    if hp.head? = some '[' then
      match byteIndex hp ']' with
      | none => none
      | some e =>
        if e + 1 = hp.length then none
        else if ¬ e + 1 = i then none
        else
          let host := (hp.drop 1).take (e - 1)
          if ¬ byteIndex (hp.drop 1) '[' = none then none
          else if ¬ byteIndex (hp.drop (e + 1)) ']' = none then none
          else some (host, hp.drop (i + 1))
    else
      let host := hp.take i
      if ¬ byteIndex host ':' = none then none
      else if ¬ byteIndex hp '[' = none then none
      else if ¬ byteIndex hp ']' = none then none
      else some (host, hp.drop (i + 1))

/-- ASCII decimal digit test, as used by Go `dtoi`. -/
def isDigitChar (c : Char) : Bool := 48 ≤ c.toNat && c.toNat ≤ 57

/-- Hexadecimal value of a character, as accepted by Go `xtoi`. -/
def hexVal (c : Char) : Option Nat :=
  if 48 ≤ c.toNat ∧ c.toNat ≤ 57 then some (c.toNat - 48)
  else if 97 ≤ c.toNat ∧ c.toNat ≤ 102 then some (c.toNat - 97 + 10)
  else if 65 ≤ c.toNat ∧ c.toNat ≤ 70 then some (c.toNat - 65 + 10)
  else none

/-- Loop of Go `dtoi` (net/parse.go): accumulated value, chars consumed so
far; returns `(n, consumed, ok)`.  `big = 0xFFFFFF` overflow cutoff. -/
def dtoiAux : List Char → Nat → Nat → Nat × Nat × Bool
  | [], n, i => (n, i, decide (i ≠ 0))
  | c :: rest, n, i =>
    if isDigitChar c then
      let n2 := n * 10 + (c.toNat - 48)
      if 0xFFFFFF ≤ n2 then (0xFFFFFF, i, false)
      else dtoiAux rest n2 (i + 1)
    else (n, i, decide (i ≠ 0))

/-- Go `dtoi`: parse a decimal prefix of `s`. -/
def dtoi (s : List Char) : Nat × Nat × Bool := dtoiAux s 0 0

/-- Loop of Go `xtoi` (net/parse.go): hexadecimal prefix parse. -/
def xtoiAux : List Char → Nat → Nat → Nat × Nat × Bool
  | [], n, i => (n, i, decide (i ≠ 0))
  | c :: rest, n, i =>
    match hexVal c with
    | some v =>
      let n2 := n * 16 + v
      if 0xFFFFFF ≤ n2 then (0, i, false)
      else xtoiAux rest n2 (i + 1)
    | none => (n, i, decide (i ≠ 0))

/-- Go `xtoi`: parse a hexadecimal prefix of `s`. -/
def xtoi (s : List Char) : Nat × Nat × Bool := xtoiAux s 0 0

/-- The IPv4-in-IPv6 prefix `v4InV6Prefix` of Go `net`: 10 zero bytes then
`0xff, 0xff`. -/
def v4InV6 : List Nat := [0, 0, 0, 0, 0, 0, 0, 0, 0, 0, 255, 255]

/-- Octet loop of Go `parseIPv4` (Go 1.14: no leading-zero rejection).
`k` octets remain; `first` is true for the first octet (no leading dot). -/
def parseIPv4Octets : Nat → Bool → List Char → List Nat → Option (List Nat)
  | 0, _, s, acc => if s = [] then some acc.reverse else none
  | k + 1, first, s, acc =>
    if s = [] then none
    else
      match (if first then some s else
              match s with
              | '.' :: t => some t
              | _ => none) with
      | none => none
      | some s2 =>
        match dtoi s2 with
        | (n, c, ok) =>
          if ¬ ok ∨ 255 < n then none
          else parseIPv4Octets k false (s2.drop c) (n :: acc)

/-- Go `parseIPv4`: a dotted-decimal IPv4 literal, returned in the 16-byte
IPv4-in-IPv6 representation produced by the Go `IPv4` constructor. -/
def parseIPv4Go (s : List Char) : Option (List Nat) :=
  match parseIPv4Octets 4 true s [] with
  | some [a, b, c, d] => some (v4InV6 ++ [a, b, c, d])
  | _ => none

/-- Final length/ellipsis bookkeeping of Go `parseIPv6`: the entire input
must be consumed; a short address needs an ellipsis, which expands to
zero bytes at its recorded position; a full 16-byte address must not
also contain an ellipsis. -/
def ipv6Finish (acc : List Nat) (ellipsis : Option Nat) (s : List Char) :
    Option (List Nat) :=
  if ¬ s = [] then none
  else if acc.length < 16 then
    match ellipsis with
    | none => none
    | some e =>
      some (acc.take e ++ List.replicate (16 - acc.length) 0 ++ acc.drop e)
  else if ¬ ellipsis = none then none
  else some acc

/-- Main loop of Go 1.14 `parseIPv6`: parse 16-bit hex groups separated by
colons, at most one `::` ellipsis, optional trailing dotted IPv4 for the
last four bytes.  `acc` is the byte prefix parsed so far, `ellipsis` its
recorded position.  Each iteration appends at least two bytes, so fuel 8
never runs out before `acc` reaches 16 bytes. -/
def parseIPv6Loop : Nat → List Char → List Nat → Option Nat → Option (List Nat)
  | 0, s, acc, ell => ipv6Finish acc ell s
  | fuel + 1, s, acc, ell =>
    if 16 ≤ acc.length then ipv6Finish acc ell s
    else
      match xtoi s with
      | (n, c, ok) =>
        if ¬ ok ∨ 0xFFFF < n then none
        else if (s.drop c).head? = some '.' then
          if ell = none ∧ ¬ acc.length = 12 then none
          else if 16 < acc.length + 4 then none
          else
            match parseIPv4Go s with
            | none => none
            | some ip16 => ipv6Finish (acc ++ ip16.drop 12) ell []
        else
          let acc2 := acc ++ [n / 256, n % 256]
          let s2 := s.drop c
          if s2 = [] then ipv6Finish acc2 ell []
          else if ¬ s2.head? = some ':' ∨ s2.length = 1 then none
          else
            let s3 := s2.drop 1
            if s3.head? = some ':' then
              if ¬ ell = none then none
              else
                let s4 := s3.drop 1
                if s4 = [] then ipv6Finish acc2 (some acc2.length) []
                else parseIPv6Loop fuel s4 acc2 (some acc2.length)
            else parseIPv6Loop fuel s3 acc2 ell

/-- Go 1.14 `parseIPv6` (without zone; zones are split off by the caller):
handles a leading `::`, then runs the group loop. -/
def parseIPv6Go (s : List Char) : Option (List Nat) :=
  match s with
  | ':' :: ':' :: rest =>
    if rest = [] then some (List.replicate 16 0)
    else parseIPv6Loop 8 rest [] (some 0)
  | _ => parseIPv6Loop 8 s [] none

/-- Go `splitHostZone`: the IPv6 scoped-addressing zone starts after the
last `%` sign, provided it is not at position 0. -/
def splitHostZone (s : List Char) : List Char × List Char :=
  match lastIndex s '%' with
  | some i => if 0 < i then (s.take i, s.drop (i + 1)) else (s, [])
  | none => (s, [])

/-- Go 1.14 `net.ParseIP`: scan for the first `.` or `:`; a dot means a
dotted-decimal IPv4 literal, a colon an IPv6 literal (whose zone, if any,
is split off and ignored, as in Go 1.14 `parseIPv6Zone`).  `none` models
the `nil` IP. -/
def parseIP (s : List Char) : Option (List Nat) :=
  match s.find? (fun c => c = '.' ∨ c = ':') with
  | some '.' => parseIPv4Go s
  | some ':' => parseIPv6Go (splitHostZone s).1
  | _ => none

/-- Go `IP.To4`: a 4-byte address is returned as is; a 16-byte address with
the IPv4-in-IPv6 prefix is shortened to its last four bytes; anything else
gives `nil`. -/
def to4 : List Nat → Option (List Nat)
  | [a, b, c, d] => some [a, b, c, d]
  | [0, 0, 0, 0, 0, 0, 0, 0, 0, 0, 255, 255, a, b, c, d] => some [a, b, c, d]
  | _ => none

/-- The Go `IPv6loopback` constant `::1`. -/
def iPv6loopbackBytes : List Nat := [0, 0, 0, 0, 0, 0, 0, 0, 0, 0, 0, 0, 0, 0, 0, 1]

/-- Go `IP.IsLoopback`: an address whose IPv4 form exists is loopback iff
its first octet is 127; otherwise it must equal `::1`.  (`IP.Equal` here
only ever compares a non-4-byte, non-v4-mapped value against the 16-byte
`::1`, which is plain bytewise equality; the `nil` IP is never loopback.) -/
def isLoopback : Option (List Nat) → Bool
  | none => false
  | some ip =>
    match to4 ip with
    | some ip4 => ip4.head? = some 127
    | none => ip = iPv6loopbackBytes

/-- The literal `"localhost"`. -/
def localhostChars : List Char := ['l', 'o', 'c', 'a', 'l', 'h', 'o', 's', 't']

/-- `isLocalAddr` from `src/http.go` (identical in the v2 snapshot): split
off the port; unparsable addresses are non-local; otherwise the host must
be the literal `localhost` or a loopback IP literal. -/
def isLocalAddr (addr : List Char) : Bool :=
  match splitHostPort addr with
  | none => false
  | some (host, _) => host = localhostChars || isLoopback (parseIP host)

/-! ## LocalDialBreaker (v2 snapshot, `src/unnamed/part_001`) -/

/-- `LocalDialBreaker` state: the single `allowOutgoingAccess` flag. -/
structure LocalDialBreaker where
  allowOutgoingAccess : Bool
deriving DecidableEq

/-- `NewLocalDialBreaker`. -/
def NewLocalDialBreaker (allowOutgoingAccess : Bool) : LocalDialBreaker :=
  ⟨allowOutgoingAccess⟩

/-- `LocalDialBreaker.Allowed`: everything when outgoing access is on,
otherwise only local addresses. -/
def LocalDialBreaker.Allowed (b : LocalDialBreaker) (addr : List Char) : Bool :=
  if b.allowOutgoingAccess then true
  else isLocalAddr addr

/-- `LocalDialBreaker.Trip` inverts the flag (state-passing embedding of the
in-place mutation). -/
def LocalDialBreaker.Trip (b : LocalDialBreaker) : LocalDialBreaker :=
  ⟨!b.allowOutgoingAccess⟩

/-! ## DialContextMiddleware (v2 snapshot, `src/unnamed/part_001`) -/

/-- One second in nanoseconds, the unit of Go `time.Duration`. -/
def second : Nat := 1000000000

/-- The `net.Dialer` configuration constructed by `DialContextMiddleware`. -/
structure Dialer where
  timeout : Nat
  keepAlive : Nat
deriving DecidableEq

/-- Outcome of a dial: either an established connection (abstract identity)
or an error message; `dialErr` models the Go `(nil, err)` return. -/
inductive DialResult where
  | conn (id : Nat)
  | dialErr (msg : List Char)
deriving DecidableEq

/-- A model of Go `strconv.Quote` (the `%q` verb of `errors.Errorf`) for one
character: `"` and `\` are backslash-escaped, printable ASCII is kept
as is, the common control characters use their named escapes, remaining
single-byte code points use `\x`, larger ones `\u`, hex-printed. -/
def quoteChar (c : Char) : List Char :=
  if c = '"' then ['\\', '"']
  else if c = '\\' then ['\\', '\\']
  else if 32 ≤ c.toNat ∧ c.toNat ≤ 126 then [c]
  else if c = '\n' then ['\\', 'n']
  else if c = '\t' then ['\\', 't']
  else if c.toNat = 13 then ['\\', 'r']
  else if c.toNat < 256 then
    '\\' :: 'x' :: (Nat.toDigits 16 c.toNat).leftpad 2 '0'
  else '\\' :: 'u' :: (Nat.toDigits 16 c.toNat).leftpad 4 '0'

/-- Go `%q` applied to a string: quoted, with each character escaped. -/
def goQuote (s : List Char) : List Char :=
  '"' :: (s.flatMap quoteChar) ++ ['"']

/-- The `DialContext` function installed by `DialContextMiddleware`
(`src/unnamed/part_001` lines 130-145): consult the breaker first and
fail with the "access not allowed" error without touching the network;
otherwise delegate to the `net.Dialer` built with 30-second `Timeout`
and `KeepAlive`.  The underlying network is abstracted as the function
`dial`, which receives the dialer configuration. -/
def dialContextMiddlewareDial (b : LocalDialBreaker)
    (dial : Dialer → List Char → List Char → DialResult)
    (network addr : List Char) : DialResult :=
  let dialer : Dialer := ⟨30 * second, 30 * second⟩
  if ¬ b.Allowed addr then
    .dialErr ("access to address ".toList ++ goQuote addr ++ " not allowed".toList)
  else dial dialer network addr

/-! ## Proxy resolution (v1 `getProxy` vs v2 `ProxyMiddleware`) -/

/-- The proxy-relevant process environment (`HTTP_PROXY`/`HTTPS_PROXY`/
`NO_PROXY`). -/
structure ProxyEnv where
  httpProxy : String
  httpsProxy : String
  noProxy : String
deriving DecidableEq

/-- `getProxy` from `src/http.go` lines 57-67: for the request with index
`n` it calls `httpproxy.FromEnvironment().ProxyFunc()(req.URL)`, reading
the environment anew (`envAt n`, the environment at the time of request
`n`).  The `httpproxy` resolution itself is abstracted as `resolve`. -/
def getProxy (resolve : ProxyEnv → String → Option String)
    (envAt : Nat → ProxyEnv) (n : Nat) (url : String) : Option String :=
  resolve (envAt n) url

/-- `ProxyMiddleware` from `src/unnamed/part_001` lines 176-181 sets
`transport.Proxy = http.ProxyFromEnvironment`.  Modelled from the Go
standard library: `http.ProxyFromEnvironment` reads the proxy environment
variables once, at its first use, and caches them for the lifetime of the
process, so every request resolves against `envAt 0`. -/
def proxyMiddlewareResolve (resolve : ProxyEnv → String → Option String)
    (envAt : Nat → ProxyEnv) (n : Nat) (url : String) : Option String :=
  resolve (envAt 0) url

/-! ## v1 client assembly (`src/client.go`): process-global state -/

/-- The shim flags of `http.DefaultTransport` that `init()` installs. -/
structure DefaultTransportState where
  dialShimInstalled : Bool
  proxyShimInstalled : Bool
deriving DecidableEq

/-- The process-wide singletons touched by v1 `client.go`:
`http.DefaultClient.Jar` (a cookie jar identity, `none` = nil) and the
`http.DefaultTransport` shim state. -/
structure ProcessState where
  defaultClientJar : Option Nat
  defaultTransport : DefaultTransportState
deriving DecidableEq

/-- The `Config` of v1 `client.go` (certificates kept as an opaque count
of PEM strings; the logger is irrelevant to the checked claim). -/
structure Config where
  caCertificates : List String
  jar : Option Nat
  skipHostnameVerification : Bool

/-- `init()` from `src/client.go` lines 24-32: installs the HTTP dial shim
and the proxy shim onto `http.DefaultTransport`. -/
def packageInit (w : ProcessState) : ProcessState :=
  { w with defaultTransport := ⟨true, true⟩ }

/-- The client value returned by `NewClient`: either an alias of the
process-wide `http.DefaultClient` or a freshly constructed `http.Client`
(with its jar and a fresh TLS transport). -/
inductive ClientRef where
  | defaultClient
  | fresh (jar : Option Nat) (tlsTransport : Bool)
deriving DecidableEq

/-- `NewClient` from `src/client.go` lines 84-112: with CA certificates or
`SkipHostnameVerification` a fresh `http.Client` is built; otherwise `hc`
is the pointer `http.DefaultClient`.  The unconditional `hc.Jar = cfg.Jar`
then either updates the fresh client or mutates the process-wide default
client, which the state-passing embedding records in the returned
`ProcessState`. -/
def NewClient (w : ProcessState) (cfg : Config) : ProcessState × ClientRef :=
  let certCnt := cfg.caCertificates.length
  if 0 < certCnt then (w, .fresh cfg.jar true)
  else if cfg.skipHostnameVerification then (w, .fresh cfg.jar true)
  else ({ w with defaultClientJar := cfg.jar }, .defaultClient)

/-! ## Basic-auth headers (`src/http.go`) with `encoding/base64`,
`strings.Fields` and `strings.SplitN` -/

/-- Byte value of the base64 standard-alphabet character with index `n`
(`A-Za-z0-9+/`); callers only use `n < 64`. -/
def b64char (n : Nat) : Nat :=
  if n < 26 then 65 + n
  else if n < 52 then 97 + (n - 26)
  else if n < 62 then 48 + (n - 52)
  else if n = 62 then 43
  else 47

/-- Index of a byte in the base64 standard alphabet, if it is in it. -/
def b64index (c : Nat) : Option Nat :=
  if 65 ≤ c ∧ c ≤ 90 then some (c - 65)
  else if 97 ≤ c ∧ c ≤ 122 then some (26 + (c - 97))
  else if 48 ≤ c ∧ c ≤ 57 then some (52 + (c - 48))
  else if c = 43 then some 62
  else if c = 47 then some 63
  else none

/-- Go `base64.StdEncoding.EncodeToString` over a byte list: three input
bytes become four alphabet bytes; a final group of one or two bytes is
padded with `=` (byte 61). -/
def encodeB64 : List Nat → List Nat
  | b1 :: b2 :: b3 :: rest =>
    b64char (b1 / 4) :: b64char (b1 % 4 * 16 + b2 / 16) ::
      b64char (b2 % 16 * 4 + b3 / 64) :: b64char (b3 % 64) :: encodeB64 rest
  | [b1, b2] =>
    [b64char (b1 / 4), b64char (b1 % 4 * 16 + b2 / 16), b64char (b2 % 16 * 4), 61]
  | [b1] => [b64char (b1 / 4), b64char (b1 % 4 * 16), 61, 61]
  | [] => []

/-- Go `base64.StdEncoding.DecodeString` over a byte list: four bytes of
input yield three output bytes, with `=` padding allowed only in the last
group; a length that is not a multiple of four, a stray alphabet byte
after padding, or a byte outside the alphabet is an error (`none`).
(The decoder's tolerance for embedded newlines is not modelled; no claim
exercises it.) -/
def decodeB64 : List Nat → Option (List Nat)
  | [] => some []
  | c1 :: c2 :: c3 :: c4 :: rest =>
    match b64index c1, b64index c2 with
    | some n1, some n2 =>
      if c3 = 61 then
        if c4 = 61 ∧ rest = [] then some [n1 * 4 + n2 / 16] else none
      else
        match b64index c3 with
        | some n3 =>
          if c4 = 61 then
            if rest = [] then some [n1 * 4 + n2 / 16, n2 % 16 * 16 + n3 / 4]
            else none
          else
            match b64index c4 with
            | some n4 =>
              match decodeB64 rest with
              | some bs =>
                some ((n1 * 4 + n2 / 16) :: (n2 % 16 * 16 + n3 / 4) ::
                  (n3 % 4 * 64 + n4) :: bs)
              | none => none
            | none => none
        | none => none
    | _, _ => none
  | _ => none

/-- ASCII white space, as recognised by `strings.Fields` for single-byte
runes (space, `\t`, `\n`, vertical tab, form feed, `\r`). -/
def isGoSpace (b : Nat) : Bool := b = 32 || (9 ≤ b && b ≤ 13)

/-- Accumulating loop of `strings.Fields`: split around maximal runs of
white space. -/
def fieldsAux : List Nat → List Nat → List (List Nat)
  | acc, [] => if acc = [] then [] else [acc.reverse]
  | acc, b :: rest =>
    if isGoSpace b then
      if acc = [] then fieldsAux [] rest
      else acc.reverse :: fieldsAux [] rest
    else fieldsAux (b :: acc) rest

/-- Go `strings.Fields` over a byte list. -/
def fields (s : List Nat) : List (List Nat) := fieldsAux [] s

/-- Go `strings.SplitN(s, ":", 2)` over a byte list: at most two tokens,
split at the first colon (byte 58). -/
def splitN2 : List Nat → List Nat → List (List Nat)
  | acc, [] => [acc.reverse]
  | acc, 58 :: rest => [acc.reverse, rest]
  | acc, b :: rest => splitN2 (b :: acc) rest

/-- An `http.Header`: keys (already in canonical MIME form here, both
call sites use the literal `"Authorization"`) mapped to value lists. -/
def Header : Type := List (String × List (List Nat))

/-- `http.Header.Get`: first value of the entry for the key, or the empty
string. -/
def headerGet (h : Header) (k : String) : List Nat :=
  match h.find? (fun p => p.1 = k) with
  | some (_, vs) => vs.headD []
  | none => []

/-- The bytes of `"Basic"`. -/
def basicBytes : List Nat := [66, 97, 115, 105, 99]

/-- `BasicAuthHeader` from `src/http.go` lines 76-82: a header whose single
`Authorization` entry is `Basic ` followed by the base64 encoding of
`username:password`. -/
def BasicAuthHeader (username password : List Nat) : Header :=
  [("Authorization", [basicBytes ++ [32] ++ encodeB64 (username ++ [58] ++ password)])]

/-- `ParseBasicAuthHeader` from `src/http.go` lines 89-105: split the
`Authorization` value into white-space fields, require exactly
`["Basic", challenge]`, base64-decode the challenge, and split it at the
first colon into user id and password. -/
def ParseBasicAuthHeader (h : Header) : Except String (List Nat × List Nat) :=
  let parts := fields (headerGet h "Authorization")
  if ¬ (parts.length = 2 ∧ parts.headD [] = basicBytes) then
    .error "invalid or missing HTTP auth header"
  else
    match decodeB64 (parts.getD 1 []) with
    | none => .error "invalid HTTP auth encoding"
    | some challenge =>
      let tokens := splitN2 [] challenge
      if ¬ tokens.length = 2 then .error "invalid HTTP auth contents"
      else .ok (tokens.headD [], tokens.getD 1 [])

/-! ## Retry middleware state machine

The implementation file of `makeRetryMiddleware` is not among the sources
(only its test suite, `src/unnamed/part_001` lines 432-684, is), so the
machine below is modelled from the specification, §4.4, with the tests as
calling convention. -/

/-- Modelled from the spec: the `RetryPolicy` passed to
`makeRetryMiddleware` — attempt budget, base delay and maximum single
delay (durations in nanoseconds). -/
structure RetryPolicy where
  attempts : Nat
  delay : Nat
  maxDelay : Nat

/-- One inner-sender outcome: a transport-level error or an HTTP response
carrying its status and the raw `Retry-After` header value, if present. -/
inductive InnerResult where
  | transportErr (msg : String)
  | response (status : Nat) (retryAfter : Option (List Char))

/-- Terminal outcomes of the retry decorator (spec §4.4 step 8). -/
inductive RetryResult where
  | success (status : Nat)
  | attemptsExceeded (lastStatus : Nat)
  | budgetExceeded (resumeAt : Nat)
  | cancelledErr
  | transportError (msg : String)
deriving DecidableEq

/-- Trace events of one retry sequence: a cancellation-signal check, an
inner-sender invocation, a wait of the given duration. -/
inductive REv where
  | check
  | attempt
  | wait (d : Nat)
deriving DecidableEq

/-- Modelled from the spec: a retryable response is HTTP 429 or any 5xx
(§4.4 step 4). -/
def retryableStatus (st : Nat) : Bool :=
  st = 429 || (500 ≤ st && st ≤ 599)

/-- Modelled from the spec: a `Retry-After` value "parses as a non-negative
integer" iff it is a non-empty digit string (§4.4 step 5). -/
def parseNonNegInt (s : List Char) : Option Nat :=
  if s = [] ∨ ¬ s.all isDigitChar then none
  else some (s.foldl (fun n c => n * 10 + (c.toNat - 48)) 0)

/-- Modelled from the spec: the candidate wait — the parsed `Retry-After`
seconds converted to a duration, else the policy's base delay (§4.4
step 5). -/
def candidateWait (ra : Option (List Char)) (delay : Nat) : Nat :=
  match ra with
  | some s =>
    match parseNonNegInt s with
    | some n => n * second
    | none => delay
  | none => delay

/-- Modelled from the spec (§4.4, steps 1-8 — the `makeRetryMiddleware`
implementation file is missing from the sources): one retry sequence.
`inner i` is the outcome the inner sender would produce for invocation
`i + ai`; the cancellation signal is the boolean stream `cancels`,
consulted in order, one index per suspension point (the check before an
attempt, the check before a wait, and the wait itself — a `true` at the
wait's index models the signal firing during that wait); on recursion
the stream is shifted by the three indices consumed.  The first `Nat`
argument is `attemptsRemaining`, decremented exactly as in step 7; `now`
is the clock reading used for the budget-exceeded resume timestamp.
Returns the terminal result together with the event trace. -/
def retryRun (inner : Nat → InnerResult) (cancels : Nat → Bool)
    (delay maxDelay now : Nat) : Nat → Nat → RetryResult × List REv
  | 0, _ => (.attemptsExceeded 0, [])
  | r + 1, ai =>
    if cancels 0 then (.cancelledErr, [.check])
    else
      match inner ai with
      | .transportErr e => (.transportError e, [.check, .attempt])
      | .response st ra =>
        if retryableStatus st then
          let w := candidateWait ra delay
          if maxDelay < w then
            if cancels 1 then (.cancelledErr, [.check, .attempt, .check])
            else if cancels 2 then
              (.cancelledErr, [.check, .attempt, .check, .wait w])
            else (.budgetExceeded (now + w), [.check, .attempt, .check, .wait w])
          else if r = 0 then (.attemptsExceeded st, [.check, .attempt])
          else if cancels 1 then (.cancelledErr, [.check, .attempt, .check])
          else if cancels 2 then
            (.cancelledErr, [.check, .attempt, .check, .wait w])
          else
            let tail := retryRun inner (fun i => cancels (i + 3)) delay maxDelay
              now r (ai + 1)
            (tail.1, [.check, .attempt, .check, .wait w] ++ tail.2)
        else (.success st, [.check, .attempt])

/-- Modelled from the spec: `RoundTrip` of the retry middleware — run the
sequence with the policy's full attempt budget. -/
def retryRoundTrip (inner : Nat → InnerResult) (cancels : Nat → Bool)
    (p : RetryPolicy) (now : Nat) : RetryResult × List REv :=
  retryRun inner cancels p.delay p.maxDelay now p.attempts 0

/-- Number of inner-sender invocations recorded in a trace. -/
def attemptsIn (tr : List REv) : Nat :=
  tr.countP (fun e => e matches REv.attempt)

/-- The durations of the waits recorded in a trace, in order. -/
def waitsIn : List REv → List Nat
  | [] => []
  | .wait d :: rest => d :: waitsIn rest
  | _ :: rest => waitsIn rest

/-- Events that act on the outside world (an attempt or a wait), as opposed
to a cancellation check. -/
def isAction : REv → Bool
  | .attempt => true
  | .wait _ => true
  | .check => false

/-- Tail scan for `checksPrecede`: `prev` is the preceding event. -/
def checksPrecedeFrom : REv → List REv → Bool
  | _, [] => true
  | prev, e :: rest =>
    (!(isAction e) || prev = REv.check) && checksPrecedeFrom e rest

/-- A trace is check-disciplined when every attempt and every wait is
immediately preceded by a cancellation check. -/
def checksPrecede : List REv → Bool
  | [] => true
  | e :: rest => !(isAction e) && checksPrecedeFrom e rest

/-! ## Theorems -/

/-- C4: `Allowed` is the flag disjoined with locality, `Trip` inverts the
flag, double `Trip` is the identity, and from the allow-all state one
`Trip` restricts to local addresses while a second restores allow-all. -/
theorem breaker_allowed_trip (b : LocalDialBreaker) (addr : List Char) :
    b.Allowed addr = (b.allowOutgoingAccess || isLocalAddr addr) ∧
    b.Trip.allowOutgoingAccess = !b.allowOutgoingAccess ∧
    b.Trip.Trip = b ∧
    (NewLocalDialBreaker true).Trip.Allowed addr = isLocalAddr addr ∧
    (NewLocalDialBreaker true).Trip.Trip.Allowed addr = true := by
  refine ⟨?_, rfl, ?_, rfl, rfl⟩
  · cases hb : b.allowOutgoingAccess <;>
      simp [LocalDialBreaker.Allowed, hb]
  · cases b with
    | mk f => cases f <;> rfl

/-- C5: `isLocalAddr` fails closed on unsplittable addresses and otherwise
tests the host for the literal `localhost` or a loopback IP; a parsed IP
is loopback exactly when its IPv4 form starts with octet 127 (the
127.0.0.0/8 block, including its v4-in-v6 embedding) or it is `::1`;
the nine classifications of the repository's own `isLocalAddrTests`
table hold.  (`isLocalAddr` returns a `Bool` by its type — no error.) -/
theorem isLocalAddr_spec :
    (∀ addr, isLocalAddr addr =
      (match splitHostPort addr with
       | none => false
       | some (host, _) => host = localhostChars || isLoopback (parseIP host))) ∧
    (∀ ip : List Nat, isLoopback (some ip) = true ↔
      ((∃ rest, to4 ip = some (127 :: rest)) ∨
       (to4 ip = none ∧ ip = iPv6loopbackBytes))) ∧
    isLocalAddr "localhost:456".toList = true ∧
    isLocalAddr "127.0.0.1:1234".toList = true ∧
    isLocalAddr "[::1]:4567".toList = true ∧
    isLocalAddr "localhost:smtp".toList = true ∧
    isLocalAddr "123.45.67.5".toList = false ∧
    isLocalAddr "0.1.2.3".toList = false ∧
    isLocalAddr "10.0.43.6:12345".toList = false ∧
    isLocalAddr ":456".toList = false ∧
    isLocalAddr "12xz4.5.6".toList = false := by
  refine ⟨fun addr => rfl, ?_, by decide, by decide, by decide, by decide,
    by decide, by decide, by decide, by decide, by decide⟩
  intro ip
  unfold isLoopback
  cases hto4 : to4 ip with
  | some ip4 =>
    simp only [hto4, Option.some.injEq, reduceCtorEq, false_and, or_false,
      decide_eq_true_eq]
    cases ip4 with
    | nil => simp
    | cons a t => simp [eq_comm]
  | none => simp [hto4]

/-- C6: when the breaker rejects an address the installed dial function
fails with the quoted-address error without consulting the underlying
network (the outcome is the same for every underlying dialer); when the
breaker allows it, the call is delegated to the dialer configured with
30-second connect timeout and keep-alive. -/
theorem dialContextMiddleware_access (b : LocalDialBreaker)
    (dial dial2 : Dialer → List Char → List Char → DialResult)
    (network addr : List Char) :
    (b.Allowed addr = false →
      dialContextMiddlewareDial b dial network addr =
        .dialErr ("access to address ".toList ++ goQuote addr ++
          " not allowed".toList) ∧
      dialContextMiddlewareDial b dial network addr =
        dialContextMiddlewareDial b dial2 network addr) ∧
    (b.Allowed addr = true →
      dialContextMiddlewareDial b dial network addr =
        dial ⟨30 * second, 30 * second⟩ network addr) := by
  unfold dialContextMiddlewareDial
  constructor
  · intro h
    simp [h]
  · intro h
    simp [h]

/-- C6 witness: the breaker from `TestInsecureClientNoAccess` rejects
`0.1.2.3:1234` with the access-not-allowed error. -/
theorem dialContextMiddleware_access_witness :
    dialContextMiddlewareDial (NewLocalDialBreaker false) (fun _ _ _ => .conn 0)
      "tcp".toList "0.1.2.3:1234".toList =
      .dialErr ("access to address ".toList ++ goQuote "0.1.2.3:1234".toList ++
        " not allowed".toList) :=
  ((dialContextMiddleware_access (NewLocalDialBreaker false) (fun _ _ _ => .conn 0)
    (fun _ _ _ => .conn 1) "tcp".toList "0.1.2.3:1234".toList).1 (by decide)).1

/-- C8: the v2 `ProxyMiddleware` delegates to the caching
`http.ProxyFromEnvironment`, so after the environment's proxy changes
between request 0 and request 1, request 1 still resolves against the
stale first environment, while the v1 `getProxy` resolves against the
fresh one — the per-request re-resolution the claim demands fails for
the middleware. -/
theorem proxyMiddleware_caching_divergence :
    proxyMiddlewareResolve (fun e _ => some e.httpProxy)
      (fun n => if n = 0 then ⟨"http://proxy-a", "", ""⟩ else ⟨"http://proxy-b", "", ""⟩)
      1 "http://example.com" = some "http://proxy-a" ∧
    getProxy (fun e _ => some e.httpProxy)
      (fun n => if n = 0 then ⟨"http://proxy-a", "", ""⟩ else ⟨"http://proxy-b", "", ""⟩)
      1 "http://example.com" = some "http://proxy-b" ∧
    ¬ (some "http://proxy-a" = some ("http://proxy-b" : String)) :=
  ⟨rfl, rfl, by decide⟩

/-- C9: evaluating v1 client assembly at the regression test's input:
`NewClient` with a default-path config and a jar overwrites the
process-wide default client's cookie jar (the jar changes from `none`
to the supplied jar), and `init()` changes the default transport — the
singletons are not left unchanged. -/
theorem newClient_mutates_defaults :
    (NewClient ⟨none, ⟨false, false⟩⟩ ⟨[], some 1, false⟩).1.defaultClientJar
      = some 1 ∧
    ¬ ((NewClient ⟨none, ⟨false, false⟩⟩ ⟨[], some 1, false⟩).1.defaultClientJar
      = (none : Option Nat)) ∧
    ¬ (packageInit ⟨none, ⟨false, false⟩⟩ = ⟨none, ⟨false, false⟩⟩) :=
  ⟨rfl, by decide, by decide⟩

/-- If a trace is check-disciplined, its tail scan is valid from any
preceding event: its first element is itself a check-or-nothing. -/
theorem checksPrecedeFrom_of_checksPrecede (tr : List REv) (prev : REv)
    (h : checksPrecede tr = true) : checksPrecedeFrom prev tr = true := by
  cases tr with
  | nil => rfl
  | cons e rest =>
    simp only [checksPrecede, Bool.and_eq_true, Bool.not_eq_true'] at h
    simp [checksPrecedeFrom, h.1, h.2]

/-- Prepending the check-attempt-check-wait block of one retry iteration
preserves check discipline. -/
theorem checksPrecede_cons_block (w : Nat) (tr : List REv)
    (h : checksPrecede tr = true) :
    checksPrecede ([REv.check, .attempt, .check, .wait w] ++ tr) = true := by
  have h4 := checksPrecedeFrom_of_checksPrecede tr (REv.wait w) h
  simpa [checksPrecede, checksPrecedeFrom, isAction] using h4

/-- Every trace the retry machine produces is check-disciplined: the
cancellation signal is consulted immediately before every inner-sender
invocation and every wait. -/
theorem checksPrecede_retryRun (inner : Nat → InnerResult)
    (delay maxDelay now : Nat) :
    ∀ (r : Nat) (cancels : Nat → Bool) (ai : Nat),
      checksPrecede (retryRun inner cancels delay maxDelay now r ai).2 = true := by
  intro r
  induction r with
  | zero => intro cancels ai; rfl
  | succ r ih =>
    intro cancels ai
    simp only [retryRun]
    by_cases h0 : cancels 0 = true
    · simp only [h0, if_true]
      rfl
    · simp only [h0, Bool.false_eq_true, if_false,
        (Bool.not_eq_true (cancels 0)).mp h0]
      cases hin : inner ai with
      | transportErr e => rfl
      | response st ra =>
        by_cases hretry : retryableStatus st = true
        · simp only [hretry, if_true]
          by_cases hbudget : maxDelay < candidateWait ra delay
          · by_cases h1 : cancels 1 = true
            · simp only [hbudget, if_true, h1]
              rfl
            · by_cases h2 : cancels 2 = true
              · simp only [hbudget, if_true, (Bool.not_eq_true (cancels 1)).mp h1,
                  Bool.false_eq_true, if_false, h2]
                rfl
              · simp only [hbudget, if_true, (Bool.not_eq_true (cancels 1)).mp h1,
                  (Bool.not_eq_true (cancels 2)).mp h2, Bool.false_eq_true, if_false]
                rfl
          · by_cases hr : r = 0
            · simp only [hbudget, if_false, hr, if_true]
              rfl
            · by_cases h1 : cancels 1 = true
              · simp only [hbudget, if_false, hr, h1, if_true]
                rfl
              · by_cases h2 : cancels 2 = true
                · simp only [hbudget, if_false, hr,
                    (Bool.not_eq_true (cancels 1)).mp h1, h2, if_true,
                    Bool.false_eq_true]
                  rfl
                · simp only [hbudget, if_false, hr,
                    (Bool.not_eq_true (cancels 1)).mp h1,
                    (Bool.not_eq_true (cancels 2)).mp h2, Bool.false_eq_true]
                  exact checksPrecede_cons_block _ _ (ih _ _)
        · simp only [hretry, Bool.false_eq_true, if_false]
          rfl

/-- C3: the cancellation signal is consulted before every attempt and
before every wait of any retry sequence (check discipline of the trace),
and a signal that has already fired before the first attempt makes
`RoundTrip` return the cancellation error immediately, with zero
inner-sender invocations and zero waits. -/
theorem retry_cancellation (inner : Nat → InnerResult) (cancels : Nat → Bool)
    (p : RetryPolicy) (now : Nat) :
    checksPrecede (retryRoundTrip inner cancels p now).2 = true ∧
    (cancels 0 = true → 1 ≤ p.attempts →
      retryRoundTrip inner cancels p now = (.cancelledErr, [.check]) ∧
      attemptsIn [REv.check] = 0 ∧ waitsIn [REv.check] = []) := by
  constructor
  · exact checksPrecede_retryRun inner p.delay p.maxDelay now p.attempts cancels 0
  · intro hfired hpos
    obtain ⟨a, ha⟩ : ∃ a, p.attempts = a + 1 := ⟨p.attempts - 1, by omega⟩
    rw [retryRoundTrip, ha]
    simp [retryRun, hfired, attemptsIn, waitsIn]

/-- C3 witness: a request whose signal has already fired, with the policy
of `TestRetryRequiredContextKilled`, is rejected with zero attempts. -/
theorem retry_cancellation_witness :
    checksPrecede (retryRoundTrip (fun _ => InnerResult.transportErr "boom")
      (fun _ => true) ⟨3, second, second⟩ 7).2 = true ∧
    retryRoundTrip (fun _ => InnerResult.transportErr "boom")
      (fun _ => true) ⟨3, second, second⟩ 7 = (.cancelledErr, [.check]) ∧
    attemptsIn [REv.check] = 0 ∧ waitsIn [REv.check] = [] := by
  have h := retry_cancellation (fun _ => InnerResult.transportErr "boom")
    (fun _ => true) ⟨3, second, second⟩ 7
  exact ⟨h.1, h.2 rfl (by decide)⟩

/-- C1: a retryable response whose candidate wait (here written `w`)
exceeds `MaxDelay` is a hard stop: with the signal never firing, the
machine waits exactly once, for the candidate duration, then fails with
the budget-exceeded error carrying the resume timestamp `now + w`; the
inner sender is invoked exactly once in the sequence's remainder,
regardless of the remaining attempt budget `r`. -/
theorem retry_budget_exceeded_hard_stop (inner : Nat → InnerResult)
    (cancels : Nat → Bool) (delay maxDelay now r ai st : Nat)
    (ra : Option (List Char)) (w : Nat)
    (hinner : inner ai = .response st ra)
    (hretry : retryableStatus st = true)
    (hw : candidateWait ra delay = w)
    (hbudget : maxDelay < w)
    (hcancel : ∀ i, cancels i = false) :
    retryRun inner cancels delay maxDelay now (r + 1) ai =
      (.budgetExceeded (now + w), [.check, .attempt, .check, .wait w]) ∧
    attemptsIn [REv.check, .attempt, .check, .wait w] = 1 ∧
    waitsIn [REv.check, .attempt, .check, .wait w] = [w] := by
  refine ⟨?_, rfl, rfl⟩
  simp [retryRun, hcancel, hinner, hretry, hw, hbudget]

/-- C1 witness: the `TestRetryRequiredUsingBackoffFailure` scenario —
`Retry-After: 2520` (42 minutes) against `MaxDelay` of one second and a
base delay of one minute: one wait of 2520 seconds, one attempt, then
the budget-exceeded error. -/
theorem retry_budget_exceeded_hard_stop_witness :
    retryRun (fun _ => .response 429 (some "2520".toList)) (fun _ => false)
      (60 * second) second 11 3 0 =
      (.budgetExceeded (11 + 2520 * second),
       [.check, .attempt, .check, .wait (2520 * second)]) ∧
    attemptsIn [REv.check, .attempt, .check, .wait (2520 * second)] = 1 ∧
    waitsIn [REv.check, .attempt, .check, .wait (2520 * second)] = [2520 * second] :=
  retry_budget_exceeded_hard_stop (fun _ => .response 429 (some "2520".toList))
    (fun _ => false) (60 * second) second 11 2 0 429 (some "2520".toList)
    (2520 * second) rfl rfl (by decide) (by decide) (fun _ => rfl)

/-- C2: with `Attempts = 3`, an inner sender that answers HTTP 502 every
time, candidate waits within budget and no cancellation, the machine
makes exactly three attempts separated by exactly two waits and fails
with the attempts-exceeded error carrying the last status 502. -/
theorem retry_attempts_exceeded (inner : Nat → InnerResult)
    (cancels : Nat → Bool) (delay maxDelay now : Nat)
    (hinner : ∀ i, inner i = InnerResult.response 502 none)
    (hcancel : ∀ i, cancels i = false)
    (hle : delay ≤ maxDelay) :
    retryRoundTrip inner cancels ⟨3, delay, maxDelay⟩ now =
      (.attemptsExceeded 502,
       [.check, .attempt, .check, .wait delay, .check, .attempt, .check,
        .wait delay, .check, .attempt]) ∧
    attemptsIn [REv.check, .attempt, .check, .wait delay, .check, .attempt,
      .check, .wait delay, .check, .attempt] = 3 ∧
    waitsIn [REv.check, .attempt, .check, .wait delay, .check, .attempt,
      .check, .wait delay, .check, .attempt] = [delay, delay] := by
  refine ⟨?_, rfl, rfl⟩
  have hnlt : ¬ maxDelay < delay := Nat.not_lt.mpr hle
  simp [retryRoundTrip, retryRun, hinner, hcancel, hnlt, candidateWait,
    retryableStatus]

/-- C2 witness: the `TestRetryRequiredAndExceeded` scenario — base delay
one second, `MaxDelay` one minute, three 502 responses: three attempts,
two waits, attempts-exceeded. -/
theorem retry_attempts_exceeded_witness :
    retryRoundTrip (fun _ => InnerResult.response 502 none) (fun _ => false)
      ⟨3, second, 60 * second⟩ 0 =
      (.attemptsExceeded 502,
       [.check, .attempt, .check, .wait second, .check, .attempt, .check,
        .wait second, .check, .attempt]) ∧
    attemptsIn [REv.check, .attempt, .check, .wait second, .check, .attempt,
      .check, .wait second, .check, .attempt] = 3 ∧
    waitsIn [REv.check, .attempt, .check, .wait second, .check, .attempt,
      .check, .wait second, .check, .attempt] = [second, second] :=
  retry_attempts_exceeded (fun _ => InnerResult.response 502 none)
    (fun _ => false) second (60 * second) 0 (fun _ => rfl) (fun _ => rfl)
    (by decide)

/-- The base64 alphabet map and its index lookup are inverse on indices
below 64. -/
theorem b64index_b64char : ∀ n < 64, b64index (b64char n) = some n := by
  decide

/-- Every byte the alphabet map produces is at least 43 (in particular it
is neither `=` (61) nor ASCII white space). -/
theorem b64char_ge (n : Nat) : 43 ≤ b64char n := by
  unfold b64char
  split_ifs <;> omega

/-- The alphabet map never produces the padding byte `=` (61). -/
theorem b64char_ne_61 (n : Nat) : ¬ b64char n = 61 := by
  unfold b64char
  split_ifs <;> omega

/-- Every byte of a base64 encoding is at least 43. -/
theorem encodeB64_ge : ∀ (bs : List Nat), ∀ c ∈ encodeB64 bs, 43 ≤ c
  | [] => by simp [encodeB64]
  | [b1] => by
    simp only [encodeB64, List.mem_cons, List.not_mem_nil, or_false]
    rintro c (rfl | rfl | rfl | rfl) <;> first | exact b64char_ge _ | omega
  | [b1, b2] => by
    simp only [encodeB64, List.mem_cons, List.not_mem_nil, or_false]
    rintro c (rfl | rfl | rfl | rfl) <;> first | exact b64char_ge _ | omega
  | b1 :: b2 :: b3 :: rest => by
    have ih := encodeB64_ge rest
    simp only [encodeB64, List.mem_cons]
    rintro c (rfl | rfl | rfl | rfl | hc) <;>
      first | exact b64char_ge _ | exact ih c hc

/-- The base64 encoding of a non-empty byte list is non-empty. -/
theorem encodeB64_ne_nil (b : Nat) (bs : List Nat) :
    ¬ encodeB64 (b :: bs) = [] := by
  match bs with
  | [] => simp [encodeB64]
  | [b2] => simp [encodeB64]
  | b2 :: b3 :: rest => simp [encodeB64]

/-- Decoding inverts encoding on byte lists (the round-trip property of
`base64.StdEncoding`). -/
theorem decodeB64_encodeB64 : ∀ (bs : List Nat), (∀ b ∈ bs, b < 256) →
    decodeB64 (encodeB64 bs) = some bs
  | [], _ => rfl
  | [b1], h => by
    have hb1 : b1 < 256 := h b1 (by simp)
    have h1 : b64index (b64char (b1 / 4)) = some (b1 / 4) :=
      b64index_b64char _ (by omega)
    have h2 : b64index (b64char (b1 % 4 * 16)) = some (b1 % 4 * 16) :=
      b64index_b64char _ (by omega)
    simp only [encodeB64, decodeB64, h1, h2, if_true, and_self, if_pos rfl]
    simp only [Option.some.injEq, List.cons.injEq, and_true]
    omega
  | [b1, b2], h => by
    have hb1 : b1 < 256 := h b1 (by simp)
    have hb2 : b2 < 256 := h b2 (by simp)
    have h1 : b64index (b64char (b1 / 4)) = some (b1 / 4) :=
      b64index_b64char _ (by omega)
    have h2 : b64index (b64char (b1 % 4 * 16 + b2 / 16)) =
        some (b1 % 4 * 16 + b2 / 16) := b64index_b64char _ (by omega)
    have h3 : b64index (b64char (b2 % 16 * 4)) = some (b2 % 16 * 4) :=
      b64index_b64char _ (by omega)
    simp only [encodeB64, decodeB64, h1, h2, h3, b64char_ne_61, if_false,
      if_true, if_pos rfl]
    simp only [Option.some.injEq, List.cons.injEq, and_true]
    omega
  | b1 :: b2 :: b3 :: rest, h => by
    have hb1 : b1 < 256 := h b1 (by simp)
    have hb2 : b2 < 256 := h b2 (by simp)
    have hb3 : b3 < 256 := h b3 (by simp)
    have ih := decodeB64_encodeB64 rest (fun b hb => h b (by simp [hb]))
    have h1 : b64index (b64char (b1 / 4)) = some (b1 / 4) :=
      b64index_b64char _ (by omega)
    have h2 : b64index (b64char (b1 % 4 * 16 + b2 / 16)) =
        some (b1 % 4 * 16 + b2 / 16) := b64index_b64char _ (by omega)
    have h3 : b64index (b64char (b2 % 16 * 4 + b3 / 64)) =
        some (b2 % 16 * 4 + b3 / 64) := b64index_b64char _ (by omega)
    have h4 : b64index (b64char (b3 % 64)) = some (b3 % 64) :=
      b64index_b64char _ (by omega)
    simp only [encodeB64, decodeB64, h1, h2, h3, h4, b64char_ne_61, if_false,
      ih]
    simp only [Option.some.injEq, List.cons.injEq, and_true]
    refine ⟨by omega, by omega, by omega⟩

/-- Bytes at least 43 are not ASCII white space. -/
theorem isGoSpace_of_ge {c : Nat} (h : 43 ≤ c) : isGoSpace c = false := by
  simp only [isGoSpace, Bool.or_eq_false_iff, decide_eq_false_iff_not,
    Bool.and_eq_false_iff]
  omega

/-- `strings.Fields` on a single white-space-free, non-trivial word yields
that word (stated on the accumulating loop). -/
theorem fieldsAux_word : ∀ (l acc : List Nat),
    (∀ b ∈ l, isGoSpace b = false) → ¬ (acc = [] ∧ l = []) →
    fieldsAux acc l = [acc.reverse ++ l]
  | [], acc, _, hne => by
    have hacc : ¬ acc = [] := fun hc => hne ⟨hc, rfl⟩
    simp [fieldsAux, hacc]
  | b :: rest, acc, hsp, _ => by
    have hb : isGoSpace b = false := hsp b (by simp)
    have ih := fieldsAux_word rest (b :: acc)
      (fun x hx => hsp x (by simp [hx])) (by simp)
    simp [fieldsAux, hb, ih, List.append_assoc]

/-- `strings.SplitN(s, ":", 2)` on a string whose first colon separates `u`
from `p` yields exactly those two tokens (stated on the loop). -/
theorem splitN2_first_colon : ∀ (u acc p : List Nat), ¬ 58 ∈ u →
    splitN2 acc (u ++ 58 :: p) = [acc.reverse ++ u, p]
  | [], acc, p, _ => by simp [splitN2]
  | b :: u, acc, p, hmem => by
    have hb : ¬ b = 58 := fun hc => hmem (by simp [hc])
    have ih := splitN2_first_colon u (b :: acc) p (fun hc => hmem (by simp [hc]))
    simp [splitN2, hb, ih, List.append_assoc]

/-- C10: decoding the header built by encoding recovers the credentials:
for any byte-string credentials whose username contains no colon,
`ParseBasicAuthHeader (BasicAuthHeader u p)` succeeds with exactly
`(u, p)`. -/
theorem basicAuth_roundtrip (u p : List Nat)
    (hu : ∀ b ∈ u, b < 256) (hp : ∀ b ∈ p, b < 256) (hcolon : ¬ 58 ∈ u) :
    ParseBasicAuthHeader (BasicAuthHeader u p) = .ok (u, p) := by
  have hbytes : ∀ b ∈ u ++ 58 :: p, b < 256 := by
    intro b hb
    rcases List.mem_append.mp hb with h | h
    · exact hu b h
    · rcases List.mem_cons.mp h with rfl | h
      · omega
      · exact hp b h
  have hdec := decodeB64_encodeB64 (u ++ 58 :: p) hbytes
  have henc_ne : ¬ encodeB64 (u ++ 58 :: p) = [] := by
    cases u with
    | nil => exact encodeB64_ne_nil 58 p
    | cons b u2 => exact encodeB64_ne_nil b (u2 ++ 58 :: p)
  have henc_sp : ∀ c ∈ encodeB64 (u ++ 58 :: p), isGoSpace c = false :=
    fun c hc => isGoSpace_of_ge (encodeB64_ge _ c hc)
  have hfields : fields (basicBytes ++ 32 :: encodeB64 (u ++ 58 :: p)) =
      [basicBytes, encodeB64 (u ++ 58 :: p)] := by
    have hword := fieldsAux_word (encodeB64 (u ++ 58 :: p)) [] henc_sp
      (by simp [henc_ne])
    simp only [basicBytes, List.cons_append, List.nil_append]
    simp [fields, fieldsAux, isGoSpace, hword]
  have hsplit := splitN2_first_colon u [] p hcolon
  have hget : headerGet (BasicAuthHeader u p) "Authorization" =
      basicBytes ++ 32 :: encodeB64 (u ++ 58 :: p) := by
    simp [headerGet, BasicAuthHeader]
  simp [ParseBasicAuthHeader, hget, hfields, hdec, hsplit]

/-- C10 witness: the credentials of `TestBasicAuthHeader`
(`eric` / `sekrit`, as byte strings) round-trip. -/
theorem basicAuth_roundtrip_witness :
    ParseBasicAuthHeader (BasicAuthHeader [101, 114, 105, 99]
      [115, 101, 107, 114, 105, 116]) =
      .ok ([101, 114, 105, 99], [115, 101, 107, 114, 105, 116]) :=
  basicAuth_roundtrip [101, 114, 105, 99] [115, 101, 107, 114, 105, 116]
    (by decide) (by decide) (by decide)

end JujuHttp
